import Mathlib

/-
Verification of the BCS (binary canonical serialization) deserializer
(`src/de.rs`) against its natural-language specification.

The decoding engine is embedded shallowly:

* Slice-mode (`Deserializer<&[u8]>`) state is a byte list (the unread
  input) together with the remaining-depth counter; every method of the
  deserializer becomes a function `SliceState → Except Error α × SliceState`,
  mirroring a `&mut self` receiver returning `Result`.
* Reader-mode (`Deserializer<TeeReader<R>>`) state additionally carries the
  stack of capture buffers (`captured_keys`); the underlying reader is
  modelled as the list of bytes it will still produce.
* Bytes are natural numbers (the Rust `u8` values); the ULEB128 accumulator
  is a natural number (the Rust `u64` accumulator cannot overflow: the
  largest value it reaches is below 2^35).
* serde visitors and seeds are abstract functions supplied by the
  schema-reflection collaborator; they appear as explicit parameters.
-/

namespace Bcs

/-- Modelled from the spec: the decoder's error taxonomy (spec section 7).
The crate's error module is not among the provided sources; each variant
below is one entry of the spec's taxonomy, with the payloads the spec
mentions (the offending length, the offending container name, the
unsupported operation). -/
inductive Error where
  | eof
  | expectedBoolean
  | expectedOption
  | nonCanonicalUleb128Encoding
  | integerOverflowDuringUleb128Decoding
  | exceededMaxLen (len : Nat)
  | exceededContainerDepthLimit (name : String)
  | utf8
  | nonCanonicalMap
  | remainingInput
  | notSupported (msg : String)
  deriving Repr, DecidableEq

/-- Modelled from the spec: the process-wide default maximum container
depth ("a process-wide default constant, overridable per call but never
upward"). The crate root defining the constant is not among the provided
sources; the value follows the reference BCS implementation. -/
def MAX_CONTAINER_DEPTH : Nat := 500

/-- Modelled from the spec: the maximum sequence/map/string/bytes length
("single process-wide constant, not overridable"). The crate root defining
the constant is not among the provided sources; the value follows the
reference BCS implementation. -/
def MAX_SEQUENCE_LENGTH : Nat := 2147483647

/-- Slice-mode deserializer state: the unread suffix of the input buffer
(`self.input : &'de [u8]`) and the `max_remaining_depth` counter. -/
structure SliceState where
  input : List Nat
  max_remaining_depth : Nat
  deriving Repr, DecidableEq

/-- A slice-mode deserializer method: mutates the state and returns a
`Result`. -/
abbrev SliceM (α : Type) := SliceState → Except Error α × SliceState

/-- `Deserializer::<&[u8]>::peek`: first input byte, or `Error::Eof`;
does not advance. -/
def peek (s : SliceState) : Except Error Nat × SliceState :=
  match s.input with
  | [] => (.error .eof, s)
  | b :: _ => (.ok b, s)

/-- Slice-mode `next`: `peek` then advance the cursor by one. -/
def next (s : SliceState) : Except Error Nat × SliceState :=
  match s.input with
  | [] => (.error .eof, s)
  | b :: rest => (.ok b, { s with input := rest })

/-- The shift amounts traversed by `for shift in (0..32).step_by(7)`. -/
def uleb128_shifts : List Nat := [0, 7, 14, 21, 28]

/-- The body of `parse_u32_from_uleb128`'s `for` loop: one recursive step
per remaining shift amount, carrying the accumulated value. Falling off
the end of the loop is the trailing overflow error. 4294967296 is
2^32: `u32::try_from` on the (non-wrapping) `u64` accumulator succeeds
exactly below it. -/
def uleb128_loop : List Nat → Nat → SliceM Nat
  | [], _, s => (.error .integerOverflowDuringUleb128Decoding, s)
  | shift :: shifts, value, s =>
    match next s with
    | (.error e, s₁) => (.error e, s₁)
    | (.ok byte, s₁) =>
      let digit := byte &&& 0x7f
      let value := value ||| (digit <<< shift)
      if digit = byte then
        if 0 < shift ∧ digit = 0 then
          (.error .nonCanonicalUleb128Encoding, s₁)
        else if value < 4294967296 then
          (.ok value, s₁)
        else
          (.error .integerOverflowDuringUleb128Decoding, s₁)
      else
        uleb128_loop shifts value s₁

/-- `BcsDeserializer::parse_u32_from_uleb128` (slice mode). -/
def parse_u32_from_uleb128 : SliceM Nat :=
  uleb128_loop uleb128_shifts 0

/-- `BcsDeserializer::parse_length`: ULEB128-decode, then bound by
`MAX_SEQUENCE_LENGTH`. -/
def parse_length (s : SliceState) : Except Error Nat × SliceState :=
  match parse_u32_from_uleb128 s with
  | (.error e, s₁) => (.error e, s₁)
  | (.ok len, s₁) =>
    if MAX_SEQUENCE_LENGTH < len then (.error (.exceededMaxLen len), s₁)
    else (.ok len, s₁)

/-- `Deserializer::<&[u8]>::parse_bytes`: a length, then that many bytes
(`self.input.get(..len)` fails with `Error::Eof` when fewer remain,
leaving the cursor untouched). -/
def parse_bytes (s : SliceState) : Except Error (List Nat) × SliceState :=
  match parse_length s with
  | (.error e, s₁) => (.error e, s₁)
  | (.ok len, s₁) =>
    if len ≤ s₁.input.length then
      (.ok (s₁.input.take len), { s₁ with input := s₁.input.drop len })
    else
      (.error .eof, s₁)

/-- One UTF-8 continuation byte (10xxxxxx). -/
def isUtf8Cont (b : Nat) : Bool := 128 ≤ b && b < 192

/-- Modelled from the spec: well-formed UTF-8 ("Strings additionally
validate the bytes are well-formed UTF-8"); `str::from_utf8` is standard
library code, not among the provided sources. Standard table: no
continuation/overlong starts, no overlong multi-byte forms, no surrogates,
no code points above U+10FFFF. -/
def isValidUtf8 : List Nat → Bool
  | [] => true
  | b :: rest =>
    if b < 128 then isValidUtf8 rest
    else if b < 194 then false
    else if b < 224 then
      match rest with
      | c :: rest₁ => isUtf8Cont c && isValidUtf8 rest₁
      | [] => false
    else if b < 240 then
      match rest with
      | c :: d :: rest₁ =>
        (if b = 224 then decide (160 ≤ c) && decide (c < 192)
         else if b = 237 then decide (128 ≤ c) && decide (c < 160)
         else isUtf8Cont c) && isUtf8Cont d && isValidUtf8 rest₁
      | _ => false
    else if b < 245 then
      match rest with
      | c :: d :: e :: rest₁ =>
        (if b = 240 then decide (144 ≤ c) && decide (c < 192)
         else if b = 244 then decide (128 ≤ c) && decide (c < 144)
         else isUtf8Cont c) && isUtf8Cont d && isUtf8Cont e && isValidUtf8 rest₁
      | _ => false
    else false

/-- `Deserializer::<&[u8]>::parse_string`: `parse_bytes` then UTF-8
validation (the `&str` result is represented by its byte list). -/
def parse_string (s : SliceState) : Except Error (List Nat) × SliceState :=
  match parse_bytes s with
  | (.error e, s₁) => (.error e, s₁)
  | (.ok bs, s₁) =>
    if isValidUtf8 bs then (.ok bs, s₁) else (.error .utf8, s₁)

/-- `Deserializer::enter_named_container`: fail when the counter is zero,
else decrement. -/
def enter_named_container (name : String) (s : SliceState) :
    Except Error Unit × SliceState :=
  if s.max_remaining_depth = 0 then
    (.error (.exceededContainerDepthLimit name), s)
  else
    (.ok (), { s with max_remaining_depth := s.max_remaining_depth - 1 })

/-- `Deserializer::leave_named_container`: increment unconditionally. -/
def leave_named_container (s : SliceState) : SliceState :=
  { s with max_remaining_depth := s.max_remaining_depth + 1 }

/-- `deserialize_any`: unconditionally unsupported. The ignored `_visitor`
argument stands for the serde visitor. -/
def deserialize_any {α β : Type} (_visitor : β) : SliceM α := fun s =>
  (.error (.notSupported "deserialize_any"), s)

/-- `deserialize_f32`: unconditionally unsupported. -/
def deserialize_f32 {α β : Type} (_visitor : β) : SliceM α := fun s =>
  (.error (.notSupported "deserialize_f32"), s)

/-- `deserialize_f64`: unconditionally unsupported. -/
def deserialize_f64 {α β : Type} (_visitor : β) : SliceM α := fun s =>
  (.error (.notSupported "deserialize_f64"), s)

/-- `deserialize_char`: unconditionally unsupported. -/
def deserialize_char {α β : Type} (_visitor : β) : SliceM α := fun s =>
  (.error (.notSupported "deserialize_char"), s)

/-- `deserialize_ignored_any`: unconditionally unsupported. -/
def deserialize_ignored_any {α β : Type} (_visitor : β) : SliceM α := fun s =>
  (.error (.notSupported "deserialize_ignored_any"), s)

/-- `deserialize_unit`: `visitor.visit_unit()`, which touches no input; the
visitor's answer is the `visit_unit` argument. -/
def deserialize_unit {α : Type} (visit_unit : Except Error α) : SliceM α :=
  fun s => (visit_unit, s)

/-- `deserialize_unit_struct`: enter the named container, decode a unit,
leave (also on the error path), return the body's result. -/
def deserialize_unit_struct {α : Type} (name : String)
    (visit_unit : Except Error α) : SliceM α := fun s =>
  match enter_named_container name s with
  | (.error e, s₁) => (.error e, s₁)
  | (.ok _, s₁) =>
    let r := deserialize_unit visit_unit s₁
    (r.1, leave_named_container r.2)

/-- `deserialize_newtype_struct`: enter, run
`visitor.visit_newtype_struct(&mut *self)` (the `visit_newtype` argument),
leave (also on the error path), return the body's result. -/
def deserialize_newtype_struct {α : Type} (name : String)
    (visit_newtype : SliceM α) : SliceM α := fun s =>
  match enter_named_container name s with
  | (.error e, s₁) => (.error e, s₁)
  | (.ok _, s₁) =>
    let r := visit_newtype s₁
    (r.1, leave_named_container r.2)

/-- `deserialize_seq`: parse a length, then
`visitor.visit_seq(SeqDeserializer::new(self, len))`; the visitor driving
the sequence iterator is the `visit_seq` argument, given the count. -/
def deserialize_seq {α : Type} (visit_seq : Nat → SliceM α) : SliceM α :=
  fun s =>
  match parse_length s with
  | (.error e, s₁) => (.error e, s₁)
  | (.ok len, s₁) => visit_seq len s₁

/-- `deserialize_tuple`: caller-supplied arity, no length prefix, no
depth accounting. -/
def deserialize_tuple {α : Type} (len : Nat) (visit_seq : Nat → SliceM α) :
    SliceM α := fun s => visit_seq len s

/-- `deserialize_tuple_struct`: enter, visit a sequence of the given
arity, leave (also on the error path). -/
def deserialize_tuple_struct {α : Type} (name : String) (len : Nat)
    (visit_seq : Nat → SliceM α) : SliceM α := fun s =>
  match enter_named_container name s with
  | (.error e, s₁) => (.error e, s₁)
  | (.ok _, s₁) =>
    let r := visit_seq len s₁
    (r.1, leave_named_container r.2)

/-- `deserialize_map`: parse a length, then
`visitor.visit_map(MapDeserializer::new(self, len))`. -/
def deserialize_map {α : Type} (visit_map : Nat → SliceM α) : SliceM α :=
  fun s =>
  match parse_length s with
  | (.error e, s₁) => (.error e, s₁)
  | (.ok len, s₁) => visit_map len s₁

/-- `deserialize_struct`: enter, visit a sequence of `fields.len()`
elements, leave (also on the error path). -/
def deserialize_struct {α : Type} (name : String) (fields : List String)
    (visit_seq : Nat → SliceM α) : SliceM α := fun s =>
  match enter_named_container name s with
  | (.error e, s₁) => (.error e, s₁)
  | (.ok _, s₁) =>
    let r := visit_seq fields.length s₁
    (r.1, leave_named_container r.2)

/-- `deserialize_enum`: enter, run `visitor.visit_enum(&mut *self)`,
leave (also on the error path). -/
def deserialize_enum {α : Type} (name : String) (_variants : List String)
    (visit_enum : SliceM α) : SliceM α := fun s =>
  match enter_named_container name s with
  | (.error e, s₁) => (.error e, s₁)
  | (.ok _, s₁) =>
    let r := visit_enum s₁
    (r.1, leave_named_container r.2)

/-- `deserialize_bytes` (slice mode): `parse_bytes`, then hand the bytes
to the visitor (`visit_borrowed_bytes`, a state-free call). -/
def deserialize_bytes {α : Type} (visitor : List Nat → Except Error α) :
    SliceM α := fun s =>
  match parse_bytes s with
  | (.error e, s₁) => (.error e, s₁)
  | (.ok bs, s₁) => (visitor bs, s₁)

/-- `deserialize_identifier`: delegates to `deserialize_bytes`. -/
def deserialize_identifier {α : Type} (visitor : List Nat → Except Error α) :
    SliceM α :=
  deserialize_bytes visitor

/-- Slice-mode `BcsDeserializer::next_key_seed`: remember the input
slice, run the key seed, and recover the key's raw bytes as the consumed
prefix (`previous_input_slice.len() - self.input.len()`, saturating). -/
def slice_next_key_seed {α : Type} (seedDe : SliceM α) (s : SliceState) :
    Except Error (α × List Nat) × SliceState :=
  let previous_input := s.input
  match seedDe s with
  | (.error e, s₁) => (.error e, s₁)
  | (.ok v, s₁) =>
    let key_len := previous_input.length - s₁.input.length
    (.ok (v, previous_input.take key_len), s₁)

/-- Slice-mode `BcsDeserializer::end`: ok exactly when the cursor is at
the end of the input. -/
def slice_end (s : SliceState) : Except Error Unit × SliceState :=
  if s.input.isEmpty then (.ok (), s) else (.error .remainingInput, s)

/-- Byte-wise lexicographic comparison of byte strings, as Rust's `Ord`
on `&[u8]` (shorter is smaller on a common prefix). -/
def compare_bytes : List Nat → List Nat → Ordering
  | [], [] => .eq
  | [], _ :: _ => .lt
  | _ :: _, [] => .gt
  | a :: ta, b :: tb =>
    if a < b then .lt else if b < a then .gt else compare_bytes ta tb

/-- Rust's `a >= b` on byte slices: the comparison is not `Less`. -/
def bytes_ge (a b : List Nat) : Bool :=
  match compare_bytes a b with
  | .lt => false
  | _ => true

/-- The fields of `MapDeserializer` other than the shared deserializer:
the remaining entry count and the previously decoded key's raw bytes. -/
structure MapDeState where
  remaining : Nat
  previous_key_bytes : Option (List Nat)
  deriving Repr, DecidableEq

/-- `MapDeserializer::next_key_seed` (slice mode): on
`remaining.checked_sub(1)` = `None` report no more entries; otherwise
decode the key together with its raw bytes and, when a previous key
exists, fail with `Error::NonCanonicalMap` unless the previous key's
bytes compare strictly below the new key's bytes. -/
def map_next_key_seed {α : Type} (seedDe : SliceM α) (m : MapDeState)
    (s : SliceState) : Except Error (Option α) × MapDeState × SliceState :=
  match m.remaining with
  | 0 => (.ok none, m, s)
  | r + 1 =>
    match slice_next_key_seed seedDe s with
    | (.error e, s₁) => (.error e, m, s₁)
    | (.ok (key_value, key_bytes), s₁) =>
      match m.previous_key_bytes with
      | some previous =>
        if bytes_ge previous key_bytes then
          (.error .nonCanonicalMap, m, s₁)
        else
          (.ok (some key_value), ⟨r, some key_bytes⟩, s₁)
      | none => (.ok (some key_value), ⟨r, some key_bytes⟩, s₁)

/-- `from_bytes`: new deserializer at the default depth, drive the
(abstract) `T::deserialize` body, then check for remaining input. -/
def from_bytes {α : Type} (body : SliceM α) (bytes : List Nat) :
    Except Error α :=
  match body ⟨bytes, MAX_CONTAINER_DEPTH⟩ with
  | (.error e, _) => .error e
  | (.ok t, s₁) =>
    match slice_end s₁ with
    | (.error e, _) => .error e
    | (.ok _, _) => .ok t

/-- `from_bytes_with_limit`: reject limits above the default before
touching the input, else run with the limit as initial depth counter. -/
def from_bytes_with_limit {α : Type} (body : SliceM α) (bytes : List Nat)
    (limit : Nat) : Except Error α :=
  if MAX_CONTAINER_DEPTH < limit then
    .error (.notSupported "limit exceeds the max allowed depth")
  else
    match body ⟨bytes, limit⟩ with
    | (.error e, _) => .error e
    | (.ok t, s₁) =>
      match slice_end s₁ with
      | (.error e, _) => .error e
      | (.ok _, _) => .ok t

/-- `from_bytes_seed`: as `from_bytes` with `seed.deserialize` as the
driven body. -/
def from_bytes_seed {α : Type} (seed : SliceM α) (bytes : List Nat) :
    Except Error α :=
  match seed ⟨bytes, MAX_CONTAINER_DEPTH⟩ with
  | (.error e, _) => .error e
  | (.ok t, s₁) =>
    match slice_end s₁ with
    | (.error e, _) => .error e
    | (.ok _, _) => .ok t

/-- `from_bytes_seed_with_limit`: limit check, then as `from_bytes_seed`
with the limit as initial depth counter. -/
def from_bytes_seed_with_limit {α : Type} (seed : SliceM α)
    (bytes : List Nat) (limit : Nat) : Except Error α :=
  if MAX_CONTAINER_DEPTH < limit then
    .error (.notSupported "limit exceeds the max allowed depth")
  else
    match seed ⟨bytes, limit⟩ with
    | (.error e, _) => .error e
    | (.ok t, s₁) =>
      match slice_end s₁ with
      | (.error e, _) => .error e
      | (.ok _, _) => .ok t

/-- A chain of `n` nested newtype structs around a trivially decodable
core: the canonical deeply nested named-container value; container at
nesting level `k` (counted from the innermost, which is level 1) is
named `names k`. -/
def nested_newtype (names : Nat → String) : Nat → SliceM Unit
  | 0 => fun s => (.ok (), s)
  | n + 1 => deserialize_newtype_struct (names (n + 1)) (nested_newtype names n)

/-- A deserializer body that restores the depth counter: the invariant
every well-paired serde decode body satisfies. -/
def DepthPreserving {α : Type} (f : SliceM α) : Prop :=
  ∀ s, ((f s).2).max_remaining_depth = s.max_remaining_depth

/-- Reader-mode deserializer state: the bytes the underlying reader will
still produce, the `TeeReader`'s stack of capture buffers (last entry =
top of stack, as in the Rust `Vec`), and the depth counter. -/
structure ReaderState where
  input : List Nat
  captured_keys : List (List Nat)
  max_remaining_depth : Nat
  deriving Repr, DecidableEq

/-- A reader-mode deserializer method. -/
abbrev ReaderM (α : Type) := ReaderState → Except Error α × ReaderState

/-- `TeeReader::read`'s capture side effect: append the bytes just read
to the top (last) capture buffer, if any
(`self.captured_keys.last_mut()`). -/
def append_to_top : List (List Nat) → List Nat → List (List Nat)
  | [], _ => []
  | [top], bs => [top ++ bs]
  | buf :: rest, bs => buf :: append_to_top rest bs

/-- Reader-mode `read_exact` through the `TeeReader`: consume exactly `n`
bytes, mirroring them into the active capture buffer; with fewer than `n`
bytes left, everything available is still consumed (and captured) before
the end-of-input error surfaces. -/
def read_exact (n : Nat) (s : ReaderState) :
    Except Error (List Nat) × ReaderState :=
  if n ≤ s.input.length then
    (.ok (s.input.take n),
     { s with
        input := s.input.drop n,
        captured_keys := append_to_top s.captured_keys (s.input.take n) })
  else
    (.error .eof,
     { s with
        input := [],
        captured_keys := append_to_top s.captured_keys s.input })

/-- Reader-mode `BcsDeserializer::end`: try to read one more byte; a
successful read is the remaining-input error, an end-of-input failure is
success. -/
def reader_end (s : ReaderState) : Except Error Unit × ReaderState :=
  match read_exact 1 s with
  | (.ok _, s₁) => (.error .remainingInput, s₁)
  | (.error .eof, s₁) => (.ok (), s₁)
  | (.error e, s₁) => (.error e, s₁)

/-- Reader-mode `BcsDeserializer::next_key_seed`: push a fresh capture
buffer, run the key seed, pop the buffer as the key's raw bytes, and
append those bytes to the still-active buffer beneath, if any. (The Rust
`pop().unwrap()` asserts the stack is nonempty; `getLastD`/`dropLast`
coincide with popping in that case.) -/
def reader_next_key_seed {α : Type} (seedDe : ReaderM α) (s : ReaderState) :
    Except Error (α × List Nat) × ReaderState :=
  let s₀ := { s with captured_keys := s.captured_keys ++ [[]] }
  match seedDe s₀ with
  | (.error e, s₁) => (.error e, s₁)
  | (.ok v, s₁) =>
    let key_bytes := s₁.captured_keys.getLastD []
    (.ok (v, key_bytes),
     { s₁ with
        captured_keys := append_to_top s₁.captured_keys.dropLast key_bytes })

/-- `from_reader`: new deserializer over a fresh `TeeReader` (empty
capture stack) at the default depth, drive the body, check end. -/
def from_reader {α : Type} (body : ReaderM α) (input : List Nat) :
    Except Error α :=
  match body ⟨input, [], MAX_CONTAINER_DEPTH⟩ with
  | (.error e, _) => .error e
  | (.ok t, s₁) =>
    match reader_end s₁ with
    | (.error e, _) => .error e
    | (.ok _, _) => .ok t

/-- `from_reader_with_limit`: limit check, then as `from_reader` with the
limit as initial depth counter. -/
def from_reader_with_limit {α : Type} (body : ReaderM α) (input : List Nat)
    (limit : Nat) : Except Error α :=
  if MAX_CONTAINER_DEPTH < limit then
    .error (.notSupported "limit exceeds the max allowed depth")
  else
    match body ⟨input, [], limit⟩ with
    | (.error e, _) => .error e
    | (.ok t, s₁) =>
      match reader_end s₁ with
      | (.error e, _) => .error e
      | (.ok _, _) => .ok t

/-- `from_reader_seed`: as `from_reader` with `seed.deserialize` as the
driven body. -/
def from_reader_seed {α : Type} (seed : ReaderM α) (input : List Nat) :
    Except Error α :=
  match seed ⟨input, [], MAX_CONTAINER_DEPTH⟩ with
  | (.error e, _) => .error e
  | (.ok t, s₁) =>
    match reader_end s₁ with
    | (.error e, _) => .error e
    | (.ok _, _) => .ok t

/-- `from_reader_seed_with_limit`: limit check, then as
`from_reader_seed` with the limit as initial depth counter. -/
def from_reader_seed_with_limit {α : Type} (seed : ReaderM α)
    (input : List Nat) (limit : Nat) : Except Error α :=
  if MAX_CONTAINER_DEPTH < limit then
    .error (.notSupported "limit exceeds the max allowed depth")
  else
    match seed ⟨input, [], limit⟩ with
    | (.error e, _) => .error e
    | (.ok t, s₁) =>
      match reader_end s₁ with
      | (.error e, _) => .error e
      | (.ok _, _) => .ok t

/-- A reader-mode decode body that interacts with the state only through
the `TeeReader`: on success, the bytes it consumed from the underlying
reader are exactly the bytes appended to the active capture buffer, the
capture stack's shape is otherwise untouched, and the depth counter is
restored. Every body built from the deserializer's own methods satisfies
this. -/
def ReadsFaithfully {α : Type} (f : ReaderM α) : Prop :=
  ∀ s v s₁, f s = (.ok v, s₁) →
    ∃ consumed,
      s.input = consumed ++ s₁.input ∧
      s₁.captured_keys = append_to_top s.captured_keys consumed ∧
      s₁.max_remaining_depth = s.max_remaining_depth

end Bcs

namespace Bcs

/-- A continuation byte (high bit set) never satisfies the loop's
`digit == byte` test. -/
theorem and_127_ne_of_ge_128 {b : Nat} (hb : 128 ≤ b) : ¬ b &&& 127 = b := by
  intro h
  have hle : b &&& 127 ≤ 127 := Nat.and_le_right
  omega

/-- Loop-level canonicality: if every remaining shift amount is positive,
and the input starts with continuation bytes followed by a zero byte (with
a shift amount left for each of them), the loop fails with the
non-canonical-encoding error, leaving the cursor after the zero byte. -/
theorem uleb128_loop_noncanonical (pre : List Nat) :
    ∀ (shifts : List Nat) (value : Nat) (rest : List Nat) (d : Nat),
      (∀ x ∈ pre, 128 ≤ x) → (∀ u ∈ shifts, 0 < u) →
      pre.length < shifts.length →
      uleb128_loop shifts value ⟨pre ++ 0 :: rest, d⟩ =
        (.error .nonCanonicalUleb128Encoding, ⟨rest, d⟩) := by
  induction pre with
  | nil =>
    intro shifts value rest d _ hsh hlen
    match shifts with
    | [] => simp at hlen
    | u :: us =>
      have hu : 0 < u := hsh u (by simp)
      simp [uleb128_loop, next, hu]
  | cons p pt ih =>
    intro shifts value rest d hpre hsh hlen
    match shifts with
    | [] => simp at hlen
    | u :: us =>
      have hp : 128 ≤ p := (hpre p (by simp))
      have hne : ¬ p &&& 127 = p := and_127_ne_of_ge_128 hp
      simp only [List.cons_append, uleb128_loop, next, hne, if_false]
      exact ih us _ rest d (fun x hx => hpre x (by simp [hx]))
        (fun v hv => hsh v (by simp [hv])) (by simpa using Nat.lt_of_succ_lt_succ hlen)

/-- First claim-set on the ULEB128 decoder: `[0x00]` decodes to 0;
`[0x80, 0x00]` is a non-canonical encoding; `[0xFF, 0xFF, 0xFF, 0xFF, 0x0F]`
decodes to 4294967295; `[0xFF, 0xFF, 0xFF, 0xFF, 0x1F]` overflows; and in
general, whenever at least one continuation byte (high bit set) precedes a
zero terminating byte, the decoder fails with the non-canonical-encoding
error. (C1) -/
theorem uleb128_canonical_decoding (d : Nat) :
    parse_u32_from_uleb128 ⟨[0x00], d⟩ = (.ok 0, ⟨[], d⟩) ∧
    parse_u32_from_uleb128 ⟨[0x80, 0x00], d⟩ =
      (.error .nonCanonicalUleb128Encoding, ⟨[], d⟩) ∧
    parse_u32_from_uleb128 ⟨[0xFF, 0xFF, 0xFF, 0xFF, 0x0F], d⟩ =
      (.ok 4294967295, ⟨[], d⟩) ∧
    parse_u32_from_uleb128 ⟨[0xFF, 0xFF, 0xFF, 0xFF, 0x1F], d⟩ =
      (.error .integerOverflowDuringUleb128Decoding, ⟨[], d⟩) ∧
    ∀ pre rest : List Nat, pre ≠ [] → pre.length ≤ 4 →
      (∀ x ∈ pre, 128 ≤ x ∧ x < 256) →
      parse_u32_from_uleb128 ⟨pre ++ 0 :: rest, d⟩ =
        (.error .nonCanonicalUleb128Encoding, ⟨rest, d⟩) := by
  refine ⟨rfl, rfl, rfl, rfl, ?_⟩
  intro pre rest hne hlen hbytes
  match pre, hne with
  | p :: pt, _ =>
    have hp : 128 ≤ p := (hbytes p (by simp)).1
    have hpne : ¬ p &&& 127 = p := and_127_ne_of_ge_128 hp
    show uleb128_loop [0, 7, 14, 21, 28] 0 ⟨(p :: pt) ++ 0 :: rest, d⟩ = _
    simp only [List.cons_append, uleb128_loop, next, hpne, if_false]
    exact uleb128_loop_noncanonical pt [7, 14, 21, 28] _ rest d
      (fun x hx => (hbytes x (by simp [hx])).1)
      (by intro u hu; fin_cases hu <;> norm_num)
      (by simp only [List.length_cons] at hlen ⊢; omega)

/-- Concrete use of the general canonicality part of
`uleb128_canonical_decoding`: `[0x80, 0x00, 0x05]` fails as non-canonical
with the trailing byte left unread. -/
theorem uleb128_canonical_decoding_witness :
    parse_u32_from_uleb128 ⟨[0x80, 0x00, 0x05], 3⟩ =
      (.error .nonCanonicalUleb128Encoding, ⟨[0x05], 3⟩) := by
  have h := (uleb128_canonical_decoding 3).2.2.2.2 [0x80] [0x05]
    (by decide) (by decide) (by decide)
  simpa using h

/-- The five unsupported entry points (`deserialize_any`,
`deserialize_f32`, `deserialize_f64`, `deserialize_char`,
`deserialize_ignored_any`) fail with a not-supported error on every
input, consuming nothing and leaving the state unchanged. (C9) -/
theorem unsupported_operations_fail (α β : Type) (visitor : β)
    (s : SliceState) :
    deserialize_any (α := α) visitor s =
      (.error (.notSupported "deserialize_any"), s) ∧
    deserialize_f32 (α := α) visitor s =
      (.error (.notSupported "deserialize_f32"), s) ∧
    deserialize_f64 (α := α) visitor s =
      (.error (.notSupported "deserialize_f64"), s) ∧
    deserialize_char (α := α) visitor s =
      (.error (.notSupported "deserialize_char"), s) ∧
    deserialize_ignored_any (α := α) visitor s =
      (.error (.notSupported "deserialize_ignored_any"), s) :=
  ⟨rfl, rfl, rfl, rfl, rfl⟩

/-- `deserialize_identifier` is not an unsupported operation: it is
exactly `deserialize_bytes` on every visitor and state; spelled out, it
ULEB128-decodes a length (subject to the maximum-sequence-length bound)
and hands that many following bytes to the visitor. (C10) -/
theorem identifier_behaves_as_bytes (α : Type) :
    (∀ (visitor : List Nat → Except Error α) (s : SliceState),
        deserialize_identifier visitor s = deserialize_bytes visitor s) ∧
    (∀ (visitor : List Nat → Except Error α) (s : SliceState) (n : Nat)
        (s₁ : SliceState),
        parse_u32_from_uleb128 s = (.ok n, s₁) →
        n ≤ MAX_SEQUENCE_LENGTH →
        n ≤ s₁.input.length →
        deserialize_identifier visitor s =
          (visitor (s₁.input.take n),
           ⟨s₁.input.drop n, s₁.max_remaining_depth⟩)) := by
  constructor
  · intro visitor s
    rfl
  · intro visitor s n s₁ h hmax hlen
    have hnotmax : ¬ MAX_SEQUENCE_LENGTH < n := Nat.not_lt.mpr hmax
    simp only [deserialize_identifier, deserialize_bytes, parse_bytes,
      parse_length, h, hnotmax, if_false, hlen, if_true, if_pos hlen]

/-- Concrete run of `identifier_behaves_as_bytes`: input `[2, 10, 20, 99]`
delivers the two bytes `[10, 20]` to the visitor, leaving `[99]`. -/
theorem identifier_behaves_as_bytes_witness :
    deserialize_identifier (fun bs => Except.ok bs) ⟨[2, 10, 20, 99], 3⟩ =
      (Except.ok [10, 20], ⟨[99], 3⟩) := by
  have h := (identifier_behaves_as_bytes (List Nat)).2
    (fun bs => Except.ok bs) ⟨[2, 10, 20, 99], 3⟩ 2 ⟨[10, 20, 99], 3⟩
    rfl (by decide) (by decide)
  simpa using h

/-- `parse_length` returns the ULEB128-decoded count unchanged when it is
within `MAX_SEQUENCE_LENGTH` and fails with the exceeded-maximum-length
error otherwise, consuming nothing beyond the length bytes; every
length-prefixed decode path (sequence, map, bytes, string) propagates a
`parse_length` failure as-is, before consuming any element, key or
payload byte and before its visitor runs. (C6) -/
theorem parse_length_bound_check (α : Type) :
    (∀ (s : SliceState) (n : Nat) (s₁ : SliceState),
        parse_u32_from_uleb128 s = (.ok n, s₁) →
        parse_length s =
          (if MAX_SEQUENCE_LENGTH < n then (.error (.exceededMaxLen n), s₁)
           else (.ok n, s₁))) ∧
    (∀ (s : SliceState) (e : Error) (s₁ : SliceState),
        parse_u32_from_uleb128 s = (.error e, s₁) →
        parse_length s = (.error e, s₁)) ∧
    (∀ (visit_seq : Nat → SliceM α) (s : SliceState) (e : Error)
        (s₁ : SliceState),
        parse_length s = (.error e, s₁) →
        deserialize_seq visit_seq s = (.error e, s₁)) ∧
    (∀ (visit_seq : Nat → SliceM α) (s : SliceState) (n : Nat)
        (s₁ : SliceState),
        parse_length s = (.ok n, s₁) →
        deserialize_seq visit_seq s = visit_seq n s₁) ∧
    (∀ (visit_map : Nat → SliceM α) (s : SliceState) (e : Error)
        (s₁ : SliceState),
        parse_length s = (.error e, s₁) →
        deserialize_map visit_map s = (.error e, s₁)) ∧
    (∀ (visit_map : Nat → SliceM α) (s : SliceState) (n : Nat)
        (s₁ : SliceState),
        parse_length s = (.ok n, s₁) →
        deserialize_map visit_map s = visit_map n s₁) ∧
    (∀ (s : SliceState) (e : Error) (s₁ : SliceState),
        parse_length s = (.error e, s₁) → parse_bytes s = (.error e, s₁)) ∧
    (∀ (s : SliceState) (e : Error) (s₁ : SliceState),
        parse_length s = (.error e, s₁) → parse_string s = (.error e, s₁)) := by
  refine ⟨?_, ?_, ?_, ?_, ?_, ?_, ?_, ?_⟩
  · intro s n s₁ h
    simp only [parse_length, h]
  · intro s e s₁ h
    simp only [parse_length, h]
  · intro visit_seq s e s₁ h
    simp only [deserialize_seq, h]
  · intro visit_seq s n s₁ h
    simp only [deserialize_seq, h]
  · intro visit_map s e s₁ h
    simp only [deserialize_map, h]
  · intro visit_map s n s₁ h
    simp only [deserialize_map, h]
  · intro s e s₁ h
    simp only [parse_bytes, h]
  · intro s e s₁ h
    have hb : parse_bytes s = (.error e, s₁) := by
      simp only [parse_bytes, h]
    simp only [parse_string, hb]

/-- Concrete runs of `parse_length_bound_check`: a length of 3 is within
the bound and returned unchanged. -/
theorem parse_length_bound_check_witness :
    parse_length ⟨[3, 9], 0⟩ = (.ok 3, ⟨[9], 0⟩) := by
  have h := (parse_length_bound_check Unit).1 ⟨[3, 9], 0⟩ 3 ⟨[9], 0⟩ rfl
  simpa using h

/-- Each decoded map key's raw bytes must compare strictly greater than
the previous key's raw bytes: with a previous key whose bytes are
greater than or equal to the new key's (out of order or duplicate), the
map decoder fails with the non-canonical-map error; with the previous
key's bytes strictly below, the entry is accepted; and the first key of
a map is accepted without any comparison. (C2) -/
theorem map_key_strict_order (α : Type) (seedDe : SliceM α)
    (s s₁ : SliceState) (kv : α) (kb : List Nat) (r : Nat) (m : MapDeState)
    (hr : m.remaining = r + 1)
    (h : slice_next_key_seed seedDe s = (.ok (kv, kb), s₁)) :
    (m.previous_key_bytes = none →
      map_next_key_seed seedDe m s = (.ok (some kv), ⟨r, some kb⟩, s₁)) ∧
    (∀ previous, m.previous_key_bytes = some previous →
      bytes_ge previous kb = true →
      map_next_key_seed seedDe m s = (.error .nonCanonicalMap, m, s₁)) ∧
    (∀ previous, m.previous_key_bytes = some previous →
      compare_bytes previous kb = .lt →
      map_next_key_seed seedDe m s = (.ok (some kv), ⟨r, some kb⟩, s₁)) := by
  obtain ⟨rem, prev⟩ := m
  simp only [MapDeState.remaining] at hr
  subst hr
  refine ⟨?_, ?_, ?_⟩
  · intro hprev
    simp only [MapDeState.previous_key_bytes] at hprev
    subst hprev
    simp only [map_next_key_seed, h]
  · intro previous hprev hge
    simp only [MapDeState.previous_key_bytes] at hprev
    subst hprev
    simp only [map_next_key_seed, h, hge, if_true]
  · intro previous hprev hlt
    simp only [MapDeState.previous_key_bytes] at hprev
    subst hprev
    have hge : bytes_ge previous kb = false := by
      simp only [bytes_ge, hlt]
    simp only [map_next_key_seed, h, hge]
    rfl

/-- Concrete run of `map_key_strict_order`: a repeated single-byte key
`[5]` is rejected as a non-canonical map. -/
theorem map_key_strict_order_witness :
    map_next_key_seed next ⟨2, some [5]⟩ ⟨[5, 9], 10⟩ =
      (.error .nonCanonicalMap, ⟨2, some [5]⟩, ⟨[9], 10⟩) := by
  have h := (map_key_strict_order Nat next ⟨[5, 9], 10⟩ ⟨[9], 10⟩ 5 [5] 1
    ⟨2, some [5]⟩ rfl rfl).2.1 [5] rfl (by decide)
  simpa using h

/-- A chain of nested newtype structs decodes whenever its height is at
most the remaining depth, leaving the state unchanged. -/
theorem nested_newtype_ok (names : Nat → String) :
    ∀ (n : Nat) (s : SliceState), n ≤ s.max_remaining_depth →
      nested_newtype names n s = (.ok (), s) := by
  intro n
  induction n with
  | zero => intro s _; rfl
  | succ n ih =>
    intro s hle
    obtain ⟨inp, d⟩ := s
    simp only [SliceState.max_remaining_depth] at hle
    have hd : ¬ d = 0 := by omega
    have hih := ih ⟨inp, d - 1⟩
      (by simp only [SliceState.max_remaining_depth]; omega)
    simp only [nested_newtype, deserialize_newtype_struct,
      enter_named_container, SliceState.max_remaining_depth, if_neg hd, hih,
      leave_named_container]
    have hd1 : d - 1 + 1 = d := by omega
    simp [hd1]

/-- A chain of nested newtype structs taller than the remaining depth
fails with the depth-exceeded error of the innermost container that was
entered (the one at height `n - depth` counted from the core), and the
depth counter is restored by the unwinding leaves. -/
theorem nested_newtype_err (names : Nat → String) :
    ∀ (n : Nat) (s : SliceState), s.max_remaining_depth < n →
      nested_newtype names n s =
        (.error (.exceededContainerDepthLimit
          (names (n - s.max_remaining_depth))), s) := by
  intro n
  induction n with
  | zero => intro s h; omega
  | succ n ih =>
    intro s hlt
    obtain ⟨inp, d⟩ := s
    simp only [SliceState.max_remaining_depth] at hlt ⊢
    by_cases hd : d = 0
    · subst hd
      simp [nested_newtype, deserialize_newtype_struct, enter_named_container]
    · have hih := ih ⟨inp, d - 1⟩
        (by simp only [SliceState.max_remaining_depth]; omega)
      simp only [SliceState.max_remaining_depth] at hih
      simp only [nested_newtype, deserialize_newtype_struct,
        enter_named_container, SliceState.max_remaining_depth, if_neg hd, hih,
        leave_named_container]
      have h1 : n - (d - 1) = n + 1 - d := by omega
      have h2 : d - 1 + 1 = d := by omega
      simp [h1, h2]

/-- Entering a named container fails exactly when the remaining-depth
counter is zero; a value of named-container nesting height `n` decodes
successfully when `n` is at most the remaining depth (in particular at
exactly the limit) and fails with the depth-exceeded error naming the
innermost entered container when `n` exceeds it. (C3) -/
theorem depth_limit_boundary (names : Nat → String) (n : Nat)
    (s : SliceState) :
    (∀ name, (enter_named_container name s).1 =
        .error (.exceededContainerDepthLimit name) ↔
        s.max_remaining_depth = 0) ∧
    (n ≤ s.max_remaining_depth → nested_newtype names n s = (.ok (), s)) ∧
    (s.max_remaining_depth < n →
      nested_newtype names n s =
        (.error (.exceededContainerDepthLimit
          (names (n - s.max_remaining_depth))), s)) := by
  refine ⟨?_, nested_newtype_ok names n s, nested_newtype_err names n s⟩
  intro name
  constructor
  · intro h
    by_contra hd
    simp [enter_named_container, hd] at h
  · intro hd
    simp [enter_named_container, hd]

/-- Concrete run of `depth_limit_boundary`: two nested newtype structs
against a remaining depth of one fail naming the inner container. -/
theorem depth_limit_boundary_witness :
    nested_newtype (fun _ => "inner") 2 ⟨[], 1⟩ =
      (.error (.exceededContainerDepthLimit "inner"), ⟨[], 1⟩) := by
  have h := (depth_limit_boundary (fun _ => "inner") 2 ⟨[], 1⟩).2.2
    (by decide)
  simpa using h

/-- After the top-level value decodes, the drivers check that the input
was consumed exactly: with at least one byte left (slice-mode: cursor not
at the end; reader-mode: one more read succeeds) they return the
remaining-input error instead of the decoded value, and with the input
consumed exactly they return the value. (C4) -/
theorem trailing_bytes_rejected (α : Type) :
    (∀ (body : SliceM α) (bytes : List Nat) (t : α) (s₁ : SliceState),
        body ⟨bytes, MAX_CONTAINER_DEPTH⟩ = (.ok t, s₁) →
        from_bytes body bytes =
          (if s₁.input = [] then .ok t else .error .remainingInput)) ∧
    (∀ (seed : SliceM α) (bytes : List Nat) (t : α) (s₁ : SliceState),
        seed ⟨bytes, MAX_CONTAINER_DEPTH⟩ = (.ok t, s₁) →
        from_bytes_seed seed bytes =
          (if s₁.input = [] then .ok t else .error .remainingInput)) ∧
    (∀ (body : ReaderM α) (input : List Nat) (t : α) (s₁ : ReaderState),
        body ⟨input, [], MAX_CONTAINER_DEPTH⟩ = (.ok t, s₁) →
        from_reader body input =
          (if s₁.input = [] then .ok t else .error .remainingInput)) ∧
    (∀ (seed : ReaderM α) (input : List Nat) (t : α) (s₁ : ReaderState),
        seed ⟨input, [], MAX_CONTAINER_DEPTH⟩ = (.ok t, s₁) →
        from_reader_seed seed input =
          (if s₁.input = [] then .ok t else .error .remainingInput)) := by
  refine ⟨?_, ?_, ?_, ?_⟩
  · intro body bytes t s₁ h
    obtain ⟨inp, d⟩ := s₁
    cases inp with
    | nil => simp [from_bytes, h, slice_end]
    | cons b bs => simp [from_bytes, h, slice_end]
  · intro seed bytes t s₁ h
    obtain ⟨inp, d⟩ := s₁
    cases inp with
    | nil => simp [from_bytes_seed, h, slice_end]
    | cons b bs => simp [from_bytes_seed, h, slice_end]
  · intro body input t s₁ h
    obtain ⟨inp, cap, d⟩ := s₁
    cases inp with
    | nil => simp [from_reader, h, reader_end, read_exact]
    | cons b bs => simp [from_reader, h, reader_end, read_exact]
  · intro seed input t s₁ h
    obtain ⟨inp, cap, d⟩ := s₁
    cases inp with
    | nil => simp [from_reader_seed, h, reader_end, read_exact]
    | cons b bs => simp [from_reader_seed, h, reader_end, read_exact]

/-- Concrete run of `trailing_bytes_rejected`: a body that decodes the
value 42 while leaving the byte `[7]` unread makes `from_bytes` fail with
the remaining-input error. -/
theorem trailing_bytes_rejected_witness :
    from_bytes (fun st => (Except.ok 42, st)) [7] =
      .error .remainingInput := by
  have h := (trailing_bytes_rejected Nat).1 (fun st => (Except.ok 42, st))
    [7] 42 ⟨[7], MAX_CONTAINER_DEPTH⟩ rfl
  simpa using h

/-- Every named-container decode path (unit-struct, newtype-struct,
tuple-struct, struct, enum) brackets its body with one depth decrement
and one increment, the increment running also on the error path: when
entry succeeds and the body itself preserves the depth counter, the
counter after the call equals the counter before it, whatever the body's
result. (C5) -/
theorem named_container_depth_balance (α : Type) (name : String)
    (fields variants : List String) (len : Nat) (s : SliceState)
    (h0 : s.max_remaining_depth ≠ 0) :
    (∀ visit_unit : Except Error α,
        ((deserialize_unit_struct name visit_unit s).2).max_remaining_depth =
          s.max_remaining_depth) ∧
    (∀ visit_newtype : SliceM α, DepthPreserving visit_newtype →
        ((deserialize_newtype_struct name visit_newtype
            s).2).max_remaining_depth = s.max_remaining_depth) ∧
    (∀ visit_seq : Nat → SliceM α, (∀ k, DepthPreserving (visit_seq k)) →
        ((deserialize_tuple_struct name len visit_seq
            s).2).max_remaining_depth = s.max_remaining_depth ∧
        ((deserialize_struct name fields visit_seq
            s).2).max_remaining_depth = s.max_remaining_depth) ∧
    (∀ visit_enum : SliceM α, DepthPreserving visit_enum →
        ((deserialize_enum name variants visit_enum
            s).2).max_remaining_depth = s.max_remaining_depth) := by
  refine ⟨?_, ?_, ?_, ?_⟩
  · intro visit_unit
    simp only [deserialize_unit_struct, enter_named_container, if_neg h0,
      deserialize_unit, leave_named_container]
    omega
  · intro f hf
    have hb := hf { s with max_remaining_depth := s.max_remaining_depth - 1 }
    simp only [deserialize_newtype_struct, enter_named_container, if_neg h0,
      leave_named_container, hb]
    omega
  · intro f hf
    constructor
    · have hb := (hf len)
        { s with max_remaining_depth := s.max_remaining_depth - 1 }
      simp only [deserialize_tuple_struct, enter_named_container, if_neg h0,
        leave_named_container, hb]
      omega
    · have hb := (hf fields.length)
        { s with max_remaining_depth := s.max_remaining_depth - 1 }
      simp only [deserialize_struct, enter_named_container, if_neg h0,
        leave_named_container, hb]
      omega
  · intro f hf
    have hb := hf { s with max_remaining_depth := s.max_remaining_depth - 1 }
    simp only [deserialize_enum, enter_named_container, if_neg h0,
      leave_named_container, hb]
    omega

/-- Concrete run of `named_container_depth_balance`: a newtype struct
whose body fails with end-of-input still restores the depth counter. -/
theorem named_container_depth_balance_witness :
    ((deserialize_newtype_struct (α := Unit) "S"
        (fun st => (Except.error Error.eof, st))
        ⟨[], 3⟩).2).max_remaining_depth = 3 :=
  (named_container_depth_balance Unit "S" [] [] 0 ⟨[], 3⟩ (by decide)).2.1
    (fun st => (Except.error Error.eof, st)) (fun _ => rfl)

/-- The per-call depth-limit entry points reject a limit strictly above
the default maximum container depth with a not-supported error — for
every body, so before any input byte is read — and accept a limit at most
the default, driving the body from an initial state whose depth counter
is that limit. (C7) -/
theorem depth_limit_config_check (α : Type) (limit : Nat) :
    (MAX_CONTAINER_DEPTH < limit →
      (∀ (body : SliceM α) (bytes : List Nat),
          from_bytes_with_limit body bytes limit =
            .error (.notSupported "limit exceeds the max allowed depth") ∧
          from_bytes_seed_with_limit body bytes limit =
            .error (.notSupported "limit exceeds the max allowed depth")) ∧
      (∀ (body : ReaderM α) (input : List Nat),
          from_reader_with_limit body input limit =
            .error (.notSupported "limit exceeds the max allowed depth") ∧
          from_reader_seed_with_limit body input limit =
            .error (.notSupported "limit exceeds the max allowed depth"))) ∧
    (limit ≤ MAX_CONTAINER_DEPTH →
      (∀ (body : SliceM α) (bytes : List Nat) (t : α) (s₁ : SliceState),
          body ⟨bytes, limit⟩ = (.ok t, s₁) →
          from_bytes_with_limit body bytes limit =
            (if s₁.input = [] then .ok t else .error .remainingInput) ∧
          from_bytes_seed_with_limit body bytes limit =
            (if s₁.input = [] then .ok t else .error .remainingInput)) ∧
      (∀ (body : ReaderM α) (input : List Nat) (t : α) (s₁ : ReaderState),
          body ⟨input, [], limit⟩ = (.ok t, s₁) →
          from_reader_with_limit body input limit =
            (if s₁.input = [] then .ok t else .error .remainingInput) ∧
          from_reader_seed_with_limit body input limit =
            (if s₁.input = [] then .ok t else .error .remainingInput))) := by
  constructor
  · intro hgt
    refine ⟨?_, ?_⟩
    · intro body bytes
      constructor
      · simp [from_bytes_with_limit, hgt]
      · simp [from_bytes_seed_with_limit, hgt]
    · intro body input
      constructor
      · simp [from_reader_with_limit, hgt]
      · simp [from_reader_seed_with_limit, hgt]
  · intro hle
    have hngt : ¬ MAX_CONTAINER_DEPTH < limit := Nat.not_lt.mpr hle
    refine ⟨?_, ?_⟩
    · intro body bytes t s₁ h
      obtain ⟨inp, d⟩ := s₁
      cases inp with
      | nil =>
        constructor
        · simp [from_bytes_with_limit, hngt, h, slice_end]
        · simp [from_bytes_seed_with_limit, hngt, h, slice_end]
      | cons b bs =>
        constructor
        · simp [from_bytes_with_limit, hngt, h, slice_end]
        · simp [from_bytes_seed_with_limit, hngt, h, slice_end]
    · intro body input t s₁ h
      obtain ⟨inp, cap, d⟩ := s₁
      cases inp with
      | nil =>
        constructor
        · simp [from_reader_with_limit, hngt, h, reader_end, read_exact]
        · simp [from_reader_seed_with_limit, hngt, h, reader_end, read_exact]
      | cons b bs =>
        constructor
        · simp [from_reader_with_limit, hngt, h, reader_end, read_exact]
        · simp [from_reader_seed_with_limit, hngt, h, reader_end, read_exact]

/-- Concrete run of `depth_limit_config_check`: a limit of 501 (one above
the default of 500) is rejected as a configuration error. -/
theorem depth_limit_config_check_witness :
    from_bytes_with_limit (fun st => (Except.ok 0, st)) [] 501 =
      .error (.notSupported "limit exceeds the max allowed depth") :=
  (((depth_limit_config_check Nat 501).1 (by decide)).1
    (fun st => (Except.ok 0, st)) []).1

/-- Appending into the top capture buffer after a push touches only the
pushed buffer. -/
theorem append_to_top_concat (xs : List (List Nat)) (t bs : List Nat) :
    append_to_top (xs ++ [t]) bs = xs ++ [t ++ bs] := by
  induction xs with
  | nil => rfl
  | cons x xs ih =>
    cases xs with
    | nil => rfl
    | cons y ys =>
      simp only [List.cons_append, append_to_top, List.append_eq] at ih ⊢
      rw [ih]

/-- The last entry of a stack that ends in `c`. -/
theorem getLastD_append_single (xs : List (List Nat)) (c d : List Nat) :
    (xs ++ [c]).getLastD d = c := by
  induction xs with
  | nil => rfl
  | cons x xs ih =>
    cases xs with
    | nil => rfl
    | cons y ys => simpa using ih

/-- Dropping the last entry of a stack that ends in `c`. -/
theorem dropLast_append_single (xs : List (List Nat)) (c : List Nat) :
    (xs ++ [c]).dropLast = xs := by
  induction xs with
  | nil => rfl
  | cons x xs ih =>
    cases xs with
    | nil => rfl
    | cons y ys =>
      simp only [List.cons_append, List.dropLast] at ih ⊢
      simpa using ih

/-- The reader primitive `read_exact` interacts with the state only
through the `TeeReader`: on success the bytes it consumed are exactly the
bytes it mirrors into the active capture buffer. -/
theorem read_exact_reads_faithfully (n : Nat) :
    ReadsFaithfully (read_exact n) := by
  intro s v s₁ h
  by_cases hn : n ≤ s.input.length
  · simp only [read_exact, if_pos hn, Prod.mk.injEq, Except.ok.injEq] at h
    obtain ⟨hv, hs⟩ := h
    refine ⟨s.input.take n, ?_, ?_, ?_⟩
    · rw [← hs]
      exact (List.take_append_drop n s.input).symm
    · rw [← hs]
    · rw [← hs]
  · simp [read_exact, if_neg hn] at h

/-- Reader-mode `next_key_seed` of a faithful key decode: the capture
buffer pushed before the decode is popped on completion holding exactly
the bytes the decode consumed from the underlying reader; those bytes are
returned as the key's raw encoding and are also appended to the
still-active capture buffer beneath (when this key decode is nested
inside an outer map's key decode), so the outer comparison sees the
complete encoding. (C8) -/
theorem reader_key_capture (α : Type) (seedDe : ReaderM α)
    (hf : ReadsFaithfully seedDe) (s : ReaderState) (v : α)
    (s₁ : ReaderState)
    (h : seedDe { s with captured_keys := s.captured_keys ++ [[]] } =
      (.ok v, s₁)) :
    ∃ consumed,
      s.input = consumed ++ s₁.input ∧
      reader_next_key_seed seedDe s =
        (.ok (v, consumed),
         { s₁ with
            captured_keys := append_to_top s.captured_keys consumed }) := by
  obtain ⟨consumed, hin, hcap, hdep⟩ :=
    hf { s with captured_keys := s.captured_keys ++ [[]] } v s₁ h
  have hcap₁ : s₁.captured_keys = s.captured_keys ++ [consumed] := by
    simpa [append_to_top_concat] using hcap
  refine ⟨consumed, hin, ?_⟩
  simp only [reader_next_key_seed, h, hcap₁, getLastD_append_single,
    dropLast_append_single]

/-- Concrete run of `reader_key_capture`: a key decode that reads two
bytes from the stream while an outer key capture is active returns those
two bytes as the key and appends them to the outer buffer. -/
theorem reader_key_capture_witness :
    ∃ consumed,
      ([1, 2, 3] : List Nat) =
        consumed ++ (⟨[3], [[9], [1, 2]], 7⟩ : ReaderState).input ∧
      reader_next_key_seed (read_exact 2) ⟨[1, 2, 3], [[9]], 7⟩ =
        (.ok ([1, 2], consumed),
         { (⟨[3], [[9], [1, 2]], 7⟩ : ReaderState) with
            captured_keys := append_to_top [[9]] consumed }) :=
  reader_key_capture (List Nat) (read_exact 2)
    (read_exact_reads_faithfully 2) ⟨[1, 2, 3], [[9]], 7⟩ [1, 2]
    ⟨[3], [[9], [1, 2]], 7⟩ rfl

end Bcs
